import Mathlib

/-!
Shallow embedding of the bounded concurrent object pool from `channel.go`
(package `pool`), specialised to a sequential interleaving of the five
operations `Get`, `Put`, `Close`, `Release`, `Len` plus the constructor
`NewChannelPool`.

Modelling conventions, each tied to the Go source:

* Go `interface{}` values that flow through the pool are modelled by the
  inductive type `V`: `V.nil` is the Go `nil` interface, `V.res n` is an
  opaque caller resource, and `V.wrap c t` is a `*idleConn` pointer whose
  fields are `conn = c` and `t = t` (`idleConn` struct, channel.go lines
  38-43).  Keeping the wrapper as a first-class value matters because the
  source sometimes passes the wrapper itself (not the wrapped resource) to
  the caller-supplied close behavior.
* `time.Time` / `time.Duration` are modelled as `Int` (an instant / a
  duration in some fixed unit); `wrapConn.t.Add(timeOut).Before(time.Now())`
  becomes `t + idleTimeout < now` and the `timeOut > 0` guard is kept.
  Each operation that reads the clock receives `now` as a parameter.
* The buffered channel `conns chan *idleConn` of capacity `MaxCap` is
  modelled as `Option (List IdleConn)`: `none` is the `nil` channel after
  `Release` set `cPool.conns = nil`; a `some q` holds the buffered entries
  in FIFO order.  A non-blocking receive takes the head, a non-blocking
  send appends when `q.length < maxCap` and falls to the `default` branch
  otherwise (a buffered Go channel is full exactly when its length equals
  its capacity).
* The caller-supplied behaviors are pure functions: the factory is a
  stream `Nat → Except Err V` (the n-th call's outcome) where several
  calls can happen (`NewChannelPool`), and a single `Except Err V` where
  the source makes at most one call (`Get`); the close behavior is
  `V → Except Err Unit`.  Each operation also reports the list of
  arguments it passed to the close behavior and how many factory calls it
  made, so that "the destroy behavior is invoked on x" is a statement
  about the model.
* Go runtime panics (calling a `nil` function value, `close` of a `nil`
  channel) are modelled as an explicit `crash` outcome carrying the Go
  runtime's message.  `cPool.close = nil` (set by `Release`) is tracked by
  the boolean field `closeNil`.
-/

namespace PoolModel

/-- A Go `interface{}` value as it flows through the pool: the `nil`
interface, an opaque caller resource, or a `*idleConn` wrapper
(`V.wrap c t` is `&idleConn{conn: c, t: t}`). -/
inductive V where
  | nil : V
  | res : Nat → V
  | wrap : V → Int → V
deriving DecidableEq, Repr

/-- The error values of the program: `ErrClose` (`"pool is closed"`),
the config-validation error of `NewChannelPool`, the two distinct
`errors.New` values for a nil argument in `Put` (`"conn is now"`) and in
`Close` (`"conn is nil"`), and opaque errors raised by the caller-supplied
factory / close behaviors. -/
inductive Err where
  | errClose : Err
  | errConfig : Err
  | errConnIsNow : Err
  | errConnIsNil : Err
  | user : Nat → Err
deriving DecidableEq, Repr

/-- An entry of the idle queue: the stored resource together with the
`time.Now()` at which it was enqueued (`idleConn` struct: fields `conn`
and `t`). -/
abbrev IdleConn := V × Int

/-- The state of a `channelPool` between operations: the buffered channel
(`none` once `Release` has nulled it), its capacity `MaxCap`, whether the
close behavior field has been nulled by `Release`, and the configured
idle timeout. -/
structure PoolSt where
  conns : Option (List IdleConn)
  maxCap : Nat
  closeNil : Bool
  idleTimeout : Int
deriving DecidableEq, Repr

/-- Convert the result of a close-behavior call into the `error` value a
Go method returns (`none` is Go `nil`). -/
def exceptErr : Except Err Unit → Option Err
  | .ok _ => none
  | .error e => some e

/-- Outcome of `Get`: a resource, a returned error, or a runtime panic. -/
inductive GetRes where
  | ok : V → GetRes
  | err : Err → GetRes
  | crash : String → GetRes
deriving DecidableEq, Repr

/-- Outcome of `Put` / `Close`: a returned `error` value (possibly Go
`nil`) or a runtime panic. -/
inductive PutRes where
  | ret : Option Err → PutRes
  | crash : String → PutRes
deriving DecidableEq, Repr

/-- Outcome of `Release` (which returns nothing): normal return or a
runtime panic. -/
inductive RelRes where
  | ret : RelRes
  | crash : String → RelRes
deriving DecidableEq, Repr

/-- Result of a `Get` call: the outcome, the post-state, the arguments
passed to the close behavior (in call order), and the number of factory
calls made. -/
structure GetOut where
  res : GetRes
  st : PoolSt
  closeCalls : List V
  factoryCalls : Nat
deriving DecidableEq, Repr

/-- Result of a `Put` or `Close` call: the outcome, the post-state, and
the arguments passed to the close behavior. -/
structure PutOut where
  res : PutRes
  st : PoolSt
  closeCalls : List V
deriving DecidableEq, Repr

/-- Result of a `Release` call. -/
structure RelOut where
  res : RelRes
  st : PoolSt
  closeCalls : List V
deriving DecidableEq, Repr

/-- The `for { select ... } }` loop of `channelPool.Get` (channel.go lines
77-99), acting on the buffered entries of the captured channel.  An empty
buffer takes the `default` branch: one factory call whose result is
returned either way.  A dequeued entry whose age exceeds a positive
`idleTimeout` is passed — as the wrapper `V.wrap conn t`, exactly as the
source writes `cPool.close(wrapConn)` — to the close behavior, whose
result is discarded, and the loop continues; otherwise `wrapConn.conn` is
returned.  Returns (outcome, remaining buffer, close-call arguments,
factory-call count). -/
def getLoop (idleTimeout : Int) (closeNil : Bool) (closeB : V → Except Err Unit)
    (now : Int) (factoryRes : Except Err V) :
    List IdleConn → GetRes × List IdleConn × List V × Nat
  | [] =>
    match factoryRes with
    | .error e => (.err e, [], [], 1)
    | .ok conn => (.ok conn, [], [], 1)
  | (conn, t) :: rest =>
    if 0 < idleTimeout ∧ t + idleTimeout < now then
      if closeNil then
        (.crash "invalid memory address or nil pointer dereference", rest, [], 0)
      else
        let _ := closeB (V.wrap conn t)
        let r := getLoop idleTimeout closeNil closeB now factoryRes rest
        (r.1, r.2.1, V.wrap conn t :: r.2.2.1, r.2.2.2)
    else
      (.ok conn, rest, [], 0)

/-- `channelPool.Get` (channel.go lines 72-101): capture the channel under
the mutex; a `nil` channel yields `ErrClose`; otherwise run the dequeue
loop. -/
def Get (st : PoolSt) (closeB : V → Except Err Unit) (now : Int)
    (factoryRes : Except Err V) : GetOut :=
  match st.conns with
  | none => ⟨.err .errClose, st, [], 0⟩
  | some q =>
    let r := getLoop st.idleTimeout st.closeNil closeB now factoryRes q
    ⟨r.1, { st with conns := some r.2.1 }, r.2.2.1, r.2.2.2⟩

/-- `channelPool.Close` (channel.go lines 123-129): reject a nil resource
with the `"conn is nil"` error, otherwise call `cPool.close(conn)` — a
runtime panic if that field has been nulled by `Release`.  Returns the
outcome and the close-call arguments (the state is not modified). -/
def Close (st : PoolSt) (closeB : V → Except Err Unit) (conn : V) :
    PutRes × List V :=
  if conn = V.nil then (.ret (some .errConnIsNil), [])
  else if st.closeNil then
    (.crash "invalid memory address or nil pointer dereference", [])
  else (.ret (exceptErr (closeB conn)), [conn])

/-- `channelPool.Put` (channel.go lines 103-122): reject a nil resource
with the `"conn is now"` error; on a released pool (`conns == nil`)
delegate to `Close`; otherwise try a non-blocking send of a fresh
`&idleConn{conn, time.Now()}` and delegate to `Close` when the buffer is
full. -/
def Put (st : PoolSt) (closeB : V → Except Err Unit) (now : Int) (conn : V) :
    PutOut :=
  if conn = V.nil then ⟨.ret (some .errConnIsNow), st, []⟩
  else
    match st.conns with
    | none =>
      let r := Close st closeB conn
      ⟨r.1, st, r.2⟩
    | some q =>
      if q.length < st.maxCap then
        ⟨.ret none, { st with conns := some (q ++ [(conn, now)]) }, []⟩
      else
        let r := Close st closeB conn
        ⟨r.1, st, r.2⟩

/-- `channelPool.Release` (channel.go lines 130-143): under the mutex
capture the channel and the close behavior and null the pool's fields;
then `close(conns)` — a runtime panic when the channel is already `nil` —
and drain the buffer, passing each entry to the captured close behavior
as the wrapper `wrapConn` (not `wrapConn.conn`), ignoring its result. -/
def Release (st : PoolSt) (closeB : V → Except Err Unit) : RelOut :=
  let st' : PoolSt := { st with conns := none, closeNil := true }
  match st.conns with
  | none => ⟨.crash "close of nil channel", st', []⟩
  | some q =>
    if st.closeNil ∧ q ≠ [] then
      ⟨.crash "invalid memory address or nil pointer dereference", st', []⟩
    else
      let _ := q.map (fun e => closeB (V.wrap e.1 e.2))
      ⟨.ret, st', q.map (fun e => V.wrap e.1 e.2)⟩

/-- `channelPool.Len` (channel.go lines 144-146): `len` of the captured
channel; Go's `len` of a `nil` channel is `0`. -/
def Len (st : PoolSt) : Nat :=
  match st.conns with
  | none => 0
  | some q => q.length

/-- The `for i := 0; i < InitCap; i++` loop of `NewChannelPool` (channel.go
lines 55-62): `k` remaining iterations, `calls` factory calls made so far,
`acc` the entries enqueued so far.  On a factory error the partially built
pool is released — its drain passes each entry to the close behavior as
the wrapper, as in `Release` — and the error is returned.  Returns
(outcome, factory-call count, close-call arguments of the failure path). -/
def initConns (factoryB : Nat → Except Err V) (now : Int) :
    Nat → Nat → List IdleConn → Except Err (List IdleConn) × Nat × List V
  | 0, calls, acc => (.ok acc, calls, [])
  | k + 1, calls, acc =>
    match factoryB calls with
    | .error e => (.error e, calls + 1, acc.map (fun e2 => V.wrap e2.1 e2.2))
    | .ok conn => initConns factoryB now k (calls + 1) (acc ++ [(conn, now)])

/-- Result of `NewChannelPool`: the built pool or an error, the number of
factory calls made, and the close-call arguments of the failure path. -/
structure NewOut where
  res : Except Err PoolSt
  factoryCalls : Nat
  closeCalls : List V
deriving Repr

/-- `NewChannelPool` (channel.go lines 45-64): validate
`InitCap > 0 ∧ MaxCap > 0 ∧ InitCap ≤ MaxCap` (the capacities are Go
`int`s, hence `Int` here), then build the pool and eagerly construct
`InitCap` resources, each timestamped `now`. -/
def NewChannelPool (initCap maxCap idleTimeout : Int)
    (factoryB : Nat → Except Err V) (now : Int) : NewOut :=
  if initCap ≤ 0 ∨ maxCap ≤ 0 ∨ maxCap < initCap then
    ⟨.error .errConfig, 0, []⟩
  else
    match initConns factoryB now initCap.toNat 0 [] with
    | (.error e, n, calls) => ⟨.error e, n, calls⟩
    | (.ok q, n, _) => ⟨.ok ⟨some q, maxCap.toNat, false, idleTimeout⟩, n, []⟩

/-- The pool states reachable by a sequential run of the program: a
successful `NewChannelPool` followed by any sequence of `Get`, `Put` and
`Release` calls (`Close` and `Len` do not modify the state). -/
inductive Reachable : PoolSt → Prop where
  | init (initCap maxCap idleTimeout : Int) (factoryB : Nat → Except Err V)
      (now : Int) (st : PoolSt) :
      (NewChannelPool initCap maxCap idleTimeout factoryB now).res = .ok st →
      Reachable st
  | get (st : PoolSt) (closeB : V → Except Err Unit) (now : Int)
      (factoryRes : Except Err V) :
      Reachable st → Reachable (Get st closeB now factoryRes).st
  | put (st : PoolSt) (closeB : V → Except Err Unit) (now : Int) (conn : V) :
      Reachable st → Reachable (Put st closeB now conn).st
  | release (st : PoolSt) (closeB : V → Except Err Unit) :
      Reachable st → Reachable (Release st closeB).st

/-- The state invariant maintained by every operation: while the pool is
open (its channel not nulled), the buffer never holds more than `maxCap`
entries and the close behavior has not been nulled. -/
def Inv (st : PoolSt) : Prop :=
  ∀ q, st.conns = some q → q.length ≤ st.maxCap ∧ st.closeNil = false

theorem Release_st (st : PoolSt) (closeB : V → Except Err Unit) :
    (Release st closeB).st = { st with conns := none, closeNil := true } := by
  unfold Release
  cases st.conns with
  | none => rfl
  | some q =>
    dsimp only
    split <;> rfl

theorem getLoop_length_le (idleTimeout : Int) (closeNil : Bool)
    (closeB : V → Except Err Unit) (now : Int) (factoryRes : Except Err V) :
    ∀ q : List IdleConn,
      (getLoop idleTimeout closeNil closeB now factoryRes q).2.1.length ≤ q.length := by
  intro q
  induction q with
  | nil => cases factoryRes <;> simp [getLoop]
  | cons e rest ih =>
    obtain ⟨conn, t⟩ := e
    unfold getLoop
    by_cases h : 0 < idleTimeout ∧ t + idleTimeout < now
    · rw [if_pos h]
      cases closeNil with
      | true => simp
      | false =>
        dsimp only
        exact Nat.le_succ_of_le ih
    · rw [if_neg h]
      simp

theorem initConns_ok_length (factoryB : Nat → Except Err V) (now : Int) :
    ∀ (k calls : Nat) (acc q : List IdleConn) (n : Nat) (cs : List V),
      initConns factoryB now k calls acc = (.ok q, n, cs) →
      q.length = acc.length + k := by
  intro k
  induction k with
  | zero =>
    intro calls acc q n cs h
    simp only [initConns, Prod.mk.injEq, Except.ok.injEq] at h
    rw [← h.1]
    omega
  | succ k ih =>
    intro calls acc q n cs h
    unfold initConns at h
    cases hf : factoryB calls with
    | error e => rw [hf] at h; simp at h
    | ok conn =>
      rw [hf] at h
      have := ih (calls + 1) (acc ++ [(conn, now)]) q n cs h
      simp only [List.length_append, List.length_cons, List.length_nil] at this
      omega

theorem New_inv (initCap maxCap idleTimeout : Int) (factoryB : Nat → Except Err V)
    (now : Int) (st : PoolSt)
    (h : (NewChannelPool initCap maxCap idleTimeout factoryB now).res = .ok st) :
    Inv st := by
  unfold NewChannelPool at h
  by_cases hv : initCap ≤ 0 ∨ maxCap ≤ 0 ∨ maxCap < initCap
  · rw [if_pos hv] at h; simp at h
  · rw [if_neg hv] at h
    push_neg at hv
    rcases hi : initConns factoryB now initCap.toNat 0 [] with ⟨r, n, cs⟩
    rw [hi] at h
    cases r with
    | error e => simp at h
    | ok q =>
      simp only [Except.ok.injEq] at h
      have hlen := initConns_ok_length factoryB now initCap.toNat 0 [] q n cs hi
      intro q2 hq2
      rw [← h] at hq2
      simp only [Option.some.injEq] at hq2
      constructor
      · rw [← hq2, hlen]
        simp only [List.length_nil, Nat.zero_add]
        rw [← h]
        exact Int.toNat_le_toNat hv.2.2
      · rw [← h]

theorem Get_st_none (st : PoolSt) (closeB : V → Except Err Unit) (now : Int)
    (factoryRes : Except Err V) (hc : st.conns = none) :
    Get st closeB now factoryRes = ⟨.err .errClose, st, [], 0⟩ := by
  unfold Get; rw [hc]

theorem Get_st_some (st : PoolSt) (closeB : V → Except Err Unit) (now : Int)
    (factoryRes : Except Err V) (q : List IdleConn) (hc : st.conns = some q) :
    (Get st closeB now factoryRes).st =
      { st with
        conns := some (getLoop st.idleTimeout st.closeNil closeB now factoryRes q).2.1 } := by
  unfold Get; rw [hc]

theorem Get_inv (st : PoolSt) (closeB : V → Except Err Unit) (now : Int)
    (factoryRes : Except Err V) (h : Inv st) :
    Inv (Get st closeB now factoryRes).st := by
  cases hc : st.conns with
  | none => rw [Get_st_none st closeB now factoryRes hc]; exact h
  | some q =>
    obtain ⟨hle, hcn⟩ := h q hc
    rw [Get_st_some st closeB now factoryRes q hc]
    intro q2 hq2
    simp only [Option.some.injEq] at hq2
    refine ⟨?_, hcn⟩
    rw [← hq2]
    exact le_trans (getLoop_length_le st.idleTimeout st.closeNil closeB now factoryRes q) hle

theorem Put_st_unchanged_of_full (st : PoolSt) (closeB : V → Except Err Unit)
    (now : Int) (conn : V) (q : List IdleConn) (hn : conn ≠ V.nil)
    (hc : st.conns = some q) (hful : ¬q.length < st.maxCap) :
    Put st closeB now conn = ⟨(Close st closeB conn).1, st, (Close st closeB conn).2⟩ := by
  unfold Put; rw [if_neg hn, hc]; dsimp only; rw [if_neg hful]

theorem Put_st_enqueue (st : PoolSt) (closeB : V → Except Err Unit)
    (now : Int) (conn : V) (q : List IdleConn) (hn : conn ≠ V.nil)
    (hc : st.conns = some q) (hful : q.length < st.maxCap) :
    Put st closeB now conn =
      ⟨.ret none, { st with conns := some (q ++ [(conn, now)]) }, []⟩ := by
  unfold Put; rw [if_neg hn, hc]; dsimp only; rw [if_pos hful]

theorem Put_inv (st : PoolSt) (closeB : V → Except Err Unit) (now : Int)
    (conn : V) (h : Inv st) :
    Inv (Put st closeB now conn).st := by
  by_cases hn : conn = V.nil
  · have hp : (Put st closeB now conn).st = st := by unfold Put; rw [if_pos hn]
    rw [hp]; exact h
  · cases hc : st.conns with
    | none =>
      have hp : (Put st closeB now conn).st = st := by
        unfold Put; rw [if_neg hn, hc]
      rw [hp]; exact h
    | some q =>
      obtain ⟨hle, hcn⟩ := h q hc
      by_cases hful : q.length < st.maxCap
      · rw [Put_st_enqueue st closeB now conn q hn hc hful]
        intro q2 hq2
        simp only [Option.some.injEq] at hq2
        refine ⟨?_, hcn⟩
        rw [← hq2]
        simp only [List.length_append, List.length_cons, List.length_nil]
        omega
      · rw [Put_st_unchanged_of_full st closeB now conn q hn hc hful]
        exact h

theorem Release_inv (st : PoolSt) (closeB : V → Except Err Unit) :
    Inv (Release st closeB).st := by
  rw [Release_st]
  intro q hq
  simp at hq

theorem reachable_inv (st : PoolSt) (h : Reachable st) : Inv st := by
  induction h with
  | init initCap maxCap idleTimeout factoryB now st hnew =>
    exact New_inv initCap maxCap idleTimeout factoryB now st hnew
  | get st closeB now factoryRes _ ih => exact Get_inv st closeB now factoryRes ih
  | put st closeB now conn _ ih => exact Put_inv st closeB now conn ih
  | release st closeB _ _ => exact Release_inv st closeB

/-- C7: in every reachable pool state the idle queue holds at most `MaxCap`
entries (`Len st ≤ st.maxCap`), and a `Put` of a non-nil resource on an
open pool whose idle queue is at capacity leaves the state unchanged,
passes exactly that resource to the destroy behavior, and returns the
destroy behavior's result. -/
theorem c7_len_bounded_and_full_put_destroys (st : PoolSt) (h : Reachable st) :
    Len st ≤ st.maxCap ∧
      ∀ (q : List IdleConn) (closeB : V → Except Err Unit) (now : Int) (conn : V),
        st.conns = some q → st.maxCap ≤ q.length → conn ≠ V.nil →
        Put st closeB now conn = ⟨.ret (exceptErr (closeB conn)), st, [conn]⟩ := by
  have hinv := reachable_inv st h
  constructor
  · unfold Len
    cases hc : st.conns with
    | none => exact Nat.zero_le _
    | some q => exact (hinv q hc).1
  · intro q closeB now conn hc hful hn
    obtain ⟨_, hcn⟩ := hinv q hc
    rw [Put_st_unchanged_of_full st closeB now conn q hn hc (by omega)]
    unfold Close
    rw [if_neg hn, hcn]
    rfl

/-- Witness for C7 at the pool built by `NewChannelPool 1 1`: its single
idle entry respects the bound, and a `Put` at capacity destroys the
incoming resource and leaves the queue unchanged. -/
theorem c7_witness :
    Len ⟨some [(V.res 0, 0)], 1, false, 0⟩ ≤ 1 ∧
      Put ⟨some [(V.res 0, 0)], 1, false, 0⟩ (fun _ => .ok ()) 5 (V.res 1) =
        ⟨.ret none, ⟨some [(V.res 0, 0)], 1, false, 0⟩, [V.res 1]⟩ := by
  have h := c7_len_bounded_and_full_put_destroys ⟨some [(V.res 0, 0)], 1, false, 0⟩
    (Reachable.init 1 1 0 (fun _ => .ok (V.res 0)) 0 ⟨some [(V.res 0, 0)], 1, false, 0⟩ rfl)
  exact ⟨h.1, h.2 [(V.res 0, 0)] (fun _ => .ok ()) 5 (V.res 1) rfl (by decide) (by decide)⟩

/-- C8: every `Get` on the state left by a completed `Release` fails with
the `PoolClosed` error (`ErrClose`), returns no resource, makes no factory
call and no destroy call, and leaves the state unchanged. -/
theorem c8_get_after_release_fails_closed (st : PoolSt)
    (closeB closeB2 : V → Except Err Unit) (now : Int) (factoryRes : Except Err V) :
    Get (Release st closeB).st closeB2 now factoryRes =
      ⟨.err .errClose, (Release st closeB).st, [], 0⟩ := by
  rw [Release_st]
  rfl

/-- C9: `NewChannelPool` with `InitCap ≤ 0`, `MaxCap ≤ 0`, or
`InitCap > MaxCap` returns the `InvalidConfig` error, makes zero factory
calls, and makes zero destroy calls. -/
theorem c9_invalid_config_constructs_nothing (initCap maxCap idleTimeout : Int)
    (factoryB : Nat → Except Err V) (now : Int)
    (h : initCap ≤ 0 ∨ maxCap ≤ 0 ∨ maxCap < initCap) :
    NewChannelPool initCap maxCap idleTimeout factoryB now = ⟨.error .errConfig, 0, []⟩ := by
  unfold NewChannelPool
  rw [if_pos h]

/-- Witness for C9 at `InitCap = 0`. -/
theorem c9_witness :
    NewChannelPool 0 1 0 (fun _ => .ok (V.res 0)) 0 = ⟨.error .errConfig, 0, []⟩ :=
  c9_invalid_config_constructs_nothing 0 1 0 (fun _ => .ok (V.res 0)) 0 (Or.inl (by decide))

/-- C1: contrary to the claim, `Put` of any non-nil resource on the state
left by a completed `Release` does not reach the destroy behavior: it
crashes with the Go runtime's nil-function-call panic, because `Release`
nulled `cPool.close` and `Put` delegates to `Close`, which calls it.  No
destroy call is recorded. -/
theorem c1_put_after_release_panics (st : PoolSt)
    (closeB closeB2 : V → Except Err Unit) (now : Int) (conn : V)
    (h : conn ≠ V.nil) :
    Put (Release st closeB).st closeB2 now conn =
      ⟨.crash "invalid memory address or nil pointer dereference",
        (Release st closeB).st, []⟩ := by
  rw [Release_st]
  unfold Put Close
  rw [if_neg h]
  dsimp only
  rw [if_neg h, if_pos rfl]

/-- Witness for C1: releasing an empty pool and then putting `res 0`. -/
theorem c1_witness :
    Put (Release ⟨some [], 1, false, 0⟩ (fun _ => .ok ())).st (fun _ => .ok ()) 0 (V.res 0) =
      ⟨.crash "invalid memory address or nil pointer dereference",
        (Release ⟨some [], 1, false, 0⟩ (fun _ => .ok ())).st, []⟩ :=
  c1_put_after_release_panics ⟨some [], 1, false, 0⟩ (fun _ => .ok ()) (fun _ => .ok ()) 0
    (V.res 0) (by decide)

/-- C2: contrary to the claim, a second `Release` is not idempotent: the
first `Release` set `cPool.conns = nil`, so the second one executes
`close(nil)` and crashes with the Go runtime's close-of-nil-channel
panic. -/
theorem c2_second_release_panics (st : PoolSt) (closeB closeB2 : V → Except Err Unit) :
    (Release (Release st closeB).st closeB2).res = .crash "close of nil channel" := by
  rw [Release_st]
  rfl

/-- C3: evaluation of `Release` on a pool holding the single idle entry
`(res 0, t = 0)`: the destroy behavior is invoked once, but its argument
is the `idleConn` wrapper `wrap (res 0) 0` — the source passes `wrapConn`
instead of `wrapConn.conn` — and not the stored resource `res 0`. -/
theorem c3_release_passes_wrapper_not_resource :
    (Release ⟨some [(V.res 0, 0)], 1, false, 0⟩ (fun _ => .ok ())).closeCalls =
        [V.wrap (V.res 0) 0] ∧
      V.wrap (V.res 0) 0 ≠ V.res 0 := by
  decide

/-- C4: evaluation of `Get` at `now = 5` on a pool with `IdleTimeout = 1`
holding the expired entry `(res 0, t = 0)` and the fresh entry
`(res 1, t = 10)`: the expired entry is destroyed exactly once, is not
returned, and the loop retries and returns the next entry — but the
destroy behavior receives the `idleConn` wrapper `wrap (res 0) 0`, not
the entry's resource `res 0`. -/
theorem c4_get_expired_destroys_wrapper_once :
    Get ⟨some [(V.res 0, 0), (V.res 1, 10)], 2, false, 1⟩ (fun _ => .ok ()) 5
        (.ok (V.res 9)) =
      ⟨.ok (V.res 1), ⟨some [], 2, false, 1⟩, [V.wrap (V.res 0) 0], 0⟩ ∧
      V.wrap (V.res 0) 0 ≠ V.res 0 := by
  decide

/-- C5 counterexample: with a destroy behavior that always fails, a `Get`
that evicts an expired idle entry makes one destroy call yet returns a
resource with no error — the destroy failure raised during `Get` is
silently discarded (the source ignores the result of
`cPool.close(wrapConn)`), refuting the claim that every destroy error
during `Get` is returned to the caller. -/
theorem c5_counterexample_get_discards_destroy_error :
    ((Get ⟨some [(V.res 0, 0), (V.res 1, 10)], 2, false, 1⟩
          (fun _ => .error (.user 7)) 5 (.ok (V.res 9))).closeCalls.length = 1) ∧
      ((Get ⟨some [(V.res 0, 0), (V.res 1, 10)], 2, false, 1⟩
          (fun _ => .error (.user 7)) 5 (.ok (V.res 9))).res = .ok (V.res 1)) := by
  decide

/-- C5 amended: construct errors raised during `Get` (empty queue) and
during `NewChannelPool`, and destroy errors raised during `Put` (released
or full pool) and during `Close`, are returned to the caller unchanged;
destroy errors raised while `Get` evicts expired idle entries are
discarded (see the counterexample), and no failed call is retried. -/
theorem c5_amended_error_propagation (st : PoolSt) (closeB : V → Except Err Unit)
    (factoryB : Nat → Except Err V) (now initCap maxCap idleTimeout : Int)
    (conn : V) (e : Err) (q : List IdleConn) :
    (st.conns = some [] → (Get st closeB now (.error e)).res = .err e) ∧
      (conn ≠ V.nil → st.conns = some q → st.maxCap ≤ q.length →
        st.closeNil = false → closeB conn = .error e →
        (Put st closeB now conn).res = .ret (some e)) ∧
      (conn ≠ V.nil → st.closeNil = false → closeB conn = .error e →
        (Close st closeB conn).1 = .ret (some e)) ∧
      (factoryB 0 = .error e → 0 < initCap → initCap ≤ maxCap → 0 < maxCap →
        (NewChannelPool initCap maxCap idleTimeout factoryB now).res = .error e) := by
  refine ⟨?_, ?_, ?_, ?_⟩
  · intro hc
    unfold Get
    rw [hc]
    rfl
  · intro hn hc hful hcn hcb
    rw [Put_st_unchanged_of_full st closeB now conn q hn hc (by omega)]
    unfold Close
    rw [if_neg hn, hcn]
    dsimp only
    rw [hcb]
    rfl
  · intro hn hcn hcb
    simp [Close, hn, hcn, hcb, exceptErr]
  · intro hf hi him hm
    unfold NewChannelPool
    rw [if_neg (by omega)]
    have hk : ∃ k, initCap.toNat = k + 1 := ⟨initCap.toNat - 1, by omega⟩
    obtain ⟨k, hk⟩ := hk
    rw [hk]
    unfold initConns
    rw [hf]

/-- Witness for C5 amended, at a pool with `maxCap = 0` and empty queue
(so the same state exercises both the empty-dequeue path of `Get` and the
full-queue path of `Put`) and behaviors that fail with `user 3`. -/
theorem c5_witness :
    ((Get ⟨some [], 0, false, 0⟩ (fun _ => .error (.user 3)) 0
        (.error (.user 3))).res = .err (.user 3)) ∧
      ((Put ⟨some [], 0, false, 0⟩ (fun _ => .error (.user 3)) 0 (V.res 0)).res =
        .ret (some (.user 3))) ∧
      ((Close ⟨some [], 0, false, 0⟩ (fun _ => .error (.user 3)) (V.res 0)).1 =
        .ret (some (.user 3))) ∧
      ((NewChannelPool 1 1 0 (fun _ => .error (.user 3)) 0).res = .error (.user 3)) := by
  have h := c5_amended_error_propagation ⟨some [], 0, false, 0⟩
    (fun _ => .error (.user 3)) (fun _ => .error (.user 3)) 0 1 1 0 (V.res 0) (.user 3) []
  exact ⟨h.1 rfl, h.2.1 (by decide) rfl (by decide) rfl rfl,
    h.2.2.1 (by decide) rfl rfl, h.2.2.2 rfl (by decide) (by decide) (by decide)⟩

/-- C6 counterexample: on an open pool with an empty idle queue and
`MaxCap = 1`, `Len` is `0` before `Get`; `Get` constructs a fresh resource
(the overflow path), and the subsequent `Put` enqueues it, so `Len` after
the round trip is `1`, not the pre-Get value `0`. -/
theorem c6_counterexample_empty_queue :
    Len ⟨some [], 1, false, 0⟩ = 0 ∧
      (Get ⟨some [], 1, false, 0⟩ (fun _ => .ok ()) 0 (.ok (V.res 0))).res =
        .ok (V.res 0) ∧
      Len ((Put (Get ⟨some [], 1, false, 0⟩ (fun _ => .ok ()) 0 (.ok (V.res 0))).st
          (fun _ => .ok ()) 0 (V.res 0)).st) = 1 := by
  decide

/-- C6 amended: the `Get`-then-`Put` round trip restores `Len` whenever
the idle queue is non-empty before the `Get` (so `Get` dequeues instead
of constructing), the dequeued head holds a non-nil resource and has not
exceeded the idle timeout, and the queue respects the capacity bound. -/
theorem c6_roundtrip_nonempty_queue (st : PoolSt) (closeB : V → Except Err Unit)
    (factoryRes : Except Err V) (now now2 t : Int) (conn : V) (q : List IdleConn)
    (hconns : st.conns = some ((conn, t) :: q))
    (hconn : conn ≠ V.nil)
    (hlen : ((conn, t) :: q).length ≤ st.maxCap)
    (hfresh : ¬(0 < st.idleTimeout ∧ t + st.idleTimeout < now)) :
    (Get st closeB now factoryRes).res = .ok conn ∧
      Len ((Put (Get st closeB now factoryRes).st closeB now2 conn).st) = Len st := by
  have hget : Get st closeB now factoryRes = ⟨.ok conn, { st with conns := some q }, [], 0⟩ := by
    unfold Get
    rw [hconns]
    dsimp only
    unfold getLoop
    rw [if_neg hfresh]
  rw [hget]
  refine ⟨rfl, ?_⟩
  have hq : q.length < PoolSt.maxCap { st with conns := some q } := by
    simp only [List.length_cons] at hlen
    dsimp only
    omega
  rw [Put_st_enqueue { st with conns := some q } closeB now2 conn q hconn rfl hq]
  unfold Len
  rw [hconns]
  dsimp only
  simp

/-- Witness for C6 amended: a pool holding `(res 5, t = 0)` with
`MaxCap = 1`, round-tripped through `Get` at `now = 0` and `Put` at
`now = 3`. -/
theorem c6_witness :
    (Get ⟨some [(V.res 5, 0)], 1, false, 0⟩ (fun _ => .ok ()) 0 (.ok (V.res 9))).res =
        .ok (V.res 5) ∧
      Len ((Put (Get ⟨some [(V.res 5, 0)], 1, false, 0⟩ (fun _ => .ok ()) 0
            (.ok (V.res 9))).st (fun _ => .ok ()) 3 (V.res 5)).st) =
        Len ⟨some [(V.res 5, 0)], 1, false, 0⟩ :=
  c6_roundtrip_nonempty_queue ⟨some [(V.res 5, 0)], 1, false, 0⟩ (fun _ => .ok ())
    (.ok (V.res 9)) 0 3 0 (V.res 5) [] rfl (by decide) (by decide) (by decide)

/-- C10: a non-nil resource `Put` into an open pool with spare idle
capacity is accepted (`Put` returns nil), and a later `Get` that dequeues
that entry before its idle timeout expires returns exactly the stored
resource — the wrapper is unwrapped via `wrapConn.conn`.  Stated for a
pool whose queue is empty before the `Put`, so the `Get` dequeues
precisely the entry the `Put` stored. -/
theorem c10_put_get_returns_same_value (st : PoolSt) (closeB : V → Except Err Unit)
    (factoryRes : Except Err V) (now now2 : Int) (conn : V)
    (hconn : conn ≠ V.nil) (hempty : st.conns = some []) (hcap : 0 < st.maxCap)
    (hfresh : ¬(0 < st.idleTimeout ∧ now + st.idleTimeout < now2)) :
    (Put st closeB now conn).res = .ret none ∧
      (Get (Put st closeB now conn).st closeB now2 factoryRes).res = .ok conn := by
  have hput : Put st closeB now conn =
      ⟨.ret none, { st with conns := some [(conn, now)] }, []⟩ := by
    rw [Put_st_enqueue st closeB now conn [] hconn hempty (by simpa using hcap)]
    rfl
  rw [hput]
  refine ⟨rfl, ?_⟩
  unfold Get
  dsimp only
  unfold getLoop
  rw [if_neg hfresh]

/-- Witness for C10: `res 4` put at `now = 1` into an empty pool with
`MaxCap = 2` and no idle timeout is the exact value returned by the next
`Get` at `now = 2`. -/
theorem c10_witness :
    (Put ⟨some [], 2, false, 0⟩ (fun _ => .ok ()) 1 (V.res 4)).res = .ret none ∧
      (Get (Put ⟨some [], 2, false, 0⟩ (fun _ => .ok ()) 1 (V.res 4)).st
          (fun _ => .ok ()) 2 (.ok (V.res 9))).res = .ok (V.res 4) :=
  c10_put_get_returns_same_value ⟨some [], 2, false, 0⟩ (fun _ => .ok ()) (.ok (V.res 9))
    1 2 (V.res 4) (by decide) rfl (by decide) (by decide)

end PoolModel
